import Mathlib

set_option autoImplicit false

/-!
Verification of the call-analysis batch pipeline services.

The definitions below are a shallow embedding of the TypeScript services in
`src/lib/services` (net2phone.ts, audio-download.ts, assemblyai.ts) and the
stage-1 pagination loop in `src/app/api/pipeline/stage1/route.ts`.

JavaScript conventions reflected in the embedding:
- missing / optional object fields become `Option`;
- string falsiness (`""` is falsy) is made explicit at each use site;
- the in-memory `Map` keyed by strings is modelled as an association list in
  insertion order: `set` on an existing key updates the entry in place,
  `set` on a fresh key appends at the end, matching JS `Map` iteration order;
- network responses and the filesystem are passed in explicitly, so each
  method becomes a pure function of its inputs.
-/

namespace CallAnalysis

/-- Canonical call record (`CallRecord` of `src/lib/types/pipeline`), as
produced by `extractRelevantData` and consumed by the download stage. -/
structure CallRecord where
  call_id : String
  from_number : String
  to_number : String
  from_username : String
  from_name : String
  start_time : String
  duration : Int
  recording_url : String
  broker_id : String
  date : String
deriving Repr, DecidableEq

/-- JS truthiness of an optional string: `undefined`, `null` and `""` are falsy. -/
def optStrTruthy (o : Option String) : Bool :=
  match o with
  | none => false
  | some s => s != ""

/-- JS `String.trim`: strip whitespace from both ends (written on the
character list so that it evaluates inside the kernel). -/
def jsTrim (s : String) : String :=
  String.mk (((s.data.dropWhile Char.isWhitespace).reverse.dropWhile Char.isWhitespace).reverse)

/-! JS `Map<string, σ>` modelled as an association list in insertion order. -/

/-- Keys of the map, in insertion order. -/
def mapKeys {σ : Type} (m : List (String × σ)) : List String :=
  m.map Prod.fst

/-- JS `Map.has`. -/
def mapHas {σ : Type} (m : List (String × σ)) (k : String) : Bool :=
  m.any (fun e => e.1 == k)

/-- JS `Map.set`: update in place when the key is present (keeping its
position), append at the end otherwise. -/
def mapSet {σ : Type} : List (String × σ) → String → σ → List (String × σ)
  | [], k, v => [(k, v)]
  | e :: rest, k, v => if e.1 = k then (k, v) :: rest else e :: mapSet rest k v

/-- JS `Map.get`. -/
def mapLookup {σ : Type} : List (String × σ) → String → Option σ
  | [], _ => none
  | e :: rest, k => if e.1 = k then some e.2 else mapLookup rest k

/-! Deduplication (`Net2PhoneService.deduplicateCalls`,
`src/lib/services/net2phone.ts` lines 123-138). -/

/-- The richness test of `deduplicateCalls`:
`call.from_name?.trim() && call.recording_url?.trim()` is truthy exactly when
both trimmed strings are non-empty. -/
def hasNameAndRecording (c : CallRecord) : Bool :=
  (jsTrim c.from_name != "") && (jsTrim c.recording_url != "")

/-- One iteration of the `deduplicateCalls` loop: store a fresh key, and on
a collision replace the stored record exactly when the new record is rich. -/
def dedupStep (m : List (String × CallRecord)) (c : CallRecord) : List (String × CallRecord) :=
  if mapHas m c.call_id then
    (if hasNameAndRecording c then mapSet m c.call_id c else m)
  else mapSet m c.call_id c

/-- The loop of `deduplicateCalls`: walk the input, keying a `Map` by
`call_id`. -/
def dedupGo : List CallRecord → List (String × CallRecord) → List (String × CallRecord)
  | [], m => m
  | c :: rest, m => dedupGo rest (dedupStep m c)

/-- Invariant of the dedup map: every stored record sits under its own
`call_id`. -/
def wellKeyed (m : List (String × CallRecord)) : Prop :=
  ∀ e ∈ m, e.2.call_id = e.1

/-- `deduplicateCalls`: build the map, then return its values in insertion
order (`Array.from(callMap.values())`). -/
def deduplicateCalls (calls : List CallRecord) : List CallRecord :=
  (dedupGo calls []).map Prod.snd

/-- Collapse step taken from the dedup claim wording: the later record
replaces the stored one if and only if it has non-blank `from_name` and
non-blank `recording_url`. Used to state what the stored record for one key
ends up being. -/
def specCollapseStep (cur : CallRecord) : List CallRecord → CallRecord
  | [] => cur
  | c :: rest => specCollapseStep (if hasNameAndRecording c then c else cur) rest

/-- Stored record for one dedup key, per the claim: the first record seen,
then replaced by each later rich record. -/
def specCollapse : List CallRecord → Option CallRecord
  | [] => none
  | c :: rest => some (specCollapseStep c rest)

/-! Download filtering (`AudioDownloadService.filterCallsForDownload`,
`src/lib/services/audio-download.ts` lines 492-531). -/

/-- Result shape of `filterCallsForDownload`. -/
structure FilterResult where
  eligible : List CallRecord
  skippedTooShort : Nat
  skippedNoRecording : Nat
  skippedNoCallId : Nat
deriving Repr, DecidableEq

/-- Body of the `forEach` in `filterCallsForDownload`: the three exclusion
checks run in source order (missing `call_id`, then short duration, then
missing/blank `recording_url`), each with an early return. -/
def filterStep (minDuration : Int) (acc : FilterResult) (c : CallRecord) : FilterResult :=
  if c.call_id = "" then
    { acc with skippedNoCallId := acc.skippedNoCallId + 1 }
  else if c.duration < minDuration then
    { acc with skippedTooShort := acc.skippedTooShort + 1 }
  else if c.recording_url = "" ∨ jsTrim c.recording_url = "" then
    { acc with skippedNoRecording := acc.skippedNoRecording + 1 }
  else
    { acc with eligible := acc.eligible ++ [c] }

/-- `filterCallsForDownload calls minDuration`. -/
def filterCallsForDownload (calls : List CallRecord) (minDuration : Int) : FilterResult :=
  calls.foldl (filterStep minDuration) ⟨[], 0, 0, 0⟩

/-- Classifier predicate: counted under `skippedNoCallId`. -/
def isNoCallId (c : CallRecord) : Bool :=
  c.call_id == ""

/-- Classifier predicate: counted under `skippedTooShort`. -/
def isTooShort (minDuration : Int) (c : CallRecord) : Bool :=
  c.call_id != "" && decide (c.duration < minDuration)

/-- Classifier predicate: counted under `skippedNoRecording`. -/
def isNoRecording (minDuration : Int) (c : CallRecord) : Bool :=
  c.call_id != "" && !(decide (c.duration < minDuration)) &&
    (c.recording_url == "" || jsTrim c.recording_url == "")

/-- Classifier predicate: kept in `eligible`. -/
def isEligible (minDuration : Int) (c : CallRecord) : Bool :=
  c.call_id != "" && !(decide (c.duration < minDuration)) &&
    !(c.recording_url == "" || jsTrim c.recording_url == "")

/-! Batch downloading (`AudioDownloadService.downloadBatch`,
`src/lib/services/audio-download.ts` lines 426-490). The per-call download is
abstracted as an outcome function; in the source each call's promise either
resolves to a `DownloadResult`, resolves to `null`, or rejects. Each promise
carries its own try/catch, so a rejection is converted into a `failed` entry
and `Promise.all` never rejects. Completion order inside a chunk is
nondeterministic in JS; the model processes a chunk in list order, which the
claims (counts and one-entry-per-call accounting) do not depend on. -/

/-- Result record of a successful audio download (`DownloadResult` of
`src/lib/types/pipeline`). -/
structure DownloadResult where
  filePath : String
  filename : String
  size : Nat
  call_id : String
  broker_id : String
deriving Repr, DecidableEq

/-- Entry of the `failed` list of `downloadBatch`. -/
structure BatchFailure where
  call_id : String
  error : String
deriving Repr, DecidableEq

/-- Possible outcomes of one `downloadAudio` promise. -/
inductive DownloadOutcome where
  | ok (r : DownloadResult)
  | noResult
  | threw (msg : String)

/-- Body of one batch promise: a non-null result goes to `successful`, a null
result becomes a failure with reason `"Download failed"`, and a thrown error
is caught and becomes a failure carrying the error message. -/
def processCall (outcome : CallRecord → DownloadOutcome) (c : CallRecord) :
    DownloadResult ⊕ BatchFailure :=
  match outcome c with
  | DownloadOutcome.ok r => Sum.inl r
  | DownloadOutcome.noResult => Sum.inr ⟨c.call_id, "Download failed"⟩
  | DownloadOutcome.threw msg => Sum.inr ⟨c.call_id, msg⟩

/-- Splitting into chunks of `n` (`calls.slice(i, i + batchSize)` in the
`for` loop of `downloadBatch`), with explicit fuel for termination. -/
def chunksOfGo {α : Type} (n : Nat) : Nat → List α → List (List α)
  | 0, _ => []
  | _, [] => []
  | fuel + 1, x :: xs => (x :: xs).take n :: chunksOfGo n fuel ((x :: xs).drop n)

/-- Splitting a list into consecutive chunks of `n`. -/
def chunksOf {α : Type} (n : Nat) (l : List α) : List (List α) :=
  chunksOfGo n l.length l

/-- Effective batch size: `options?.batchSize || 4` treats an absent or zero
batch size as 4. -/
def effBatchSize (batchSizeOpt : Option Nat) : Nat :=
  match batchSizeOpt with
  | none => 4
  | some 0 => 4
  | some (n + 1) => n + 1

/-- First component selector for partitioning the processed entries. -/
def sumLeft? : DownloadResult ⊕ BatchFailure → Option DownloadResult
  | Sum.inl r => some r
  | Sum.inr _ => none

/-- Second component selector for partitioning the processed entries. -/
def sumRight? : DownloadResult ⊕ BatchFailure → Option BatchFailure
  | Sum.inl _ => none
  | Sum.inr f => some f

/-- `downloadBatch`: process the calls chunk by chunk (the inter-chunk delay
has no effect on the returned lists) and accumulate the `successful` and
`failed` partitions. -/
def downloadBatch (outcome : CallRecord → DownloadOutcome) (calls : List CallRecord)
    (batchSizeOpt : Option Nat) : List DownloadResult × List BatchFailure :=
  let processed :=
    ((chunksOf (effBatchSize batchSizeOpt) calls).map
      (fun chunk => chunk.map (processCall outcome))).flatten
  (processed.filterMap sumLeft?, processed.filterMap sumRight?)

/-! Single-file download (`AudioDownloadService.downloadAudio`,
`src/lib/services/audio-download.ts` lines 343-424). The recording lookup it
performs first is passed in as a `RecordingInfo` (its own behaviour is
modelled separately below), the audio fetch is passed in as a `FetchResp`,
and the filesystem is an explicit map from path to file size. -/

/-- Outcome of the recording-lookup call (`RecordingInfo` of
`src/lib/types/pipeline`, status one of Available / Processing / Failed /
NotFound). -/
structure RecordingInfo where
  status : String
  url : Option String
  call_id : String
  duration : Option Int
  file_size : Option Int
deriving Repr, DecidableEq

/-- Response of the plain `fetch` of the recording url: `ok` flag, optional
`content-length` header, and the streamed body as a list of chunk sizes
(`none` when there is no body, which makes the code throw). -/
structure FetchResp where
  ok : Bool
  contentLength : Option Int
  body : Option (List Nat)
deriving Repr, DecidableEq

/-- Filesystem model: a map from path to size of the file stored there. -/
def Fs : Type := String → Option Nat

/-- Model of `fs.writeFileSync`. -/
def fsWrite (fs : Fs) (p : String) (n : Nat) : Fs :=
  fun q => if q = p then some n else fs q

/-- Model of `fs.unlinkSync`. -/
def fsRemove (fs : Fs) (p : String) : Fs :=
  fun q => if q = p then none else fs q

/-- The empty filesystem. -/
def fsEmpty : Fs := fun _ => none

/-- One pass of `replace(/\.\./g, '')`: drop the left-to-right
non-overlapping occurrences of `".."`. -/
def removeDotDot : List Char → List Char
  | [] => []
  | '.' :: '.' :: rest => removeDotDot rest
  | c :: rest => c :: removeDotDot rest

/-- Character-wise effect of the two replaces in `sanitizeSegment`: path
separators become underscores, and so does every character outside
`[a-zA-Z0-9._-]`. -/
def sanitizeChar (c : Char) : Char :=
  if c = '/' ∨ c = '\\' then '_'
  else if c.isAlphanum ∨ c = '.' ∨ c = '_' ∨ c = '-' then c
  else '_'

/-- `AudioDownloadService.sanitizeSegment` (lines 536-546): empty input maps
to the empty string; otherwise remove `".."` pairs, replace path separators
and disallowed characters by underscores, strip leading dots, and truncate to
100 characters. -/
def sanitizeSegment (input : String) : String :=
  if input = "" then ""
  else String.mk ((((removeDotDot input.data).map sanitizeChar).dropWhile (fun c => c = '.')).take 100)

/-- First three characters of a string (`slice(0, 3)`). -/
def sliceThree (s : String) : String :=
  String.mk (s.data.take 3)

/-- Filename built by `downloadAudio`:
`sanitizeSegment(broker_id).slice(0,3) || 'unk'` underscore
`sanitizeSegment(call_id) || 'unknown'` and the `.wav` suffix. -/
def targetFilename (call : CallRecord) : String :=
  (if sliceThree (sanitizeSegment call.broker_id) = "" then "unk"
    else sliceThree (sanitizeSegment call.broker_id))
  ++ "_"
  ++ (if sanitizeSegment call.call_id = "" then "unknown" else sanitizeSegment call.call_id)
  ++ ".wav"

/-- Target path of the download (`path.join(outputDir, filename)`). -/
def targetPath (outputDir : String) (call : CallRecord) : String :=
  outputDir ++ "/" ++ targetFilename call

/-- `downloadAudio`: return `null` (modelled `none`) when the recording is
not available, the fetch is not ok, or the body is missing; otherwise write
the concatenated body to the target path, and when the written file has size
zero delete it and fail; every thrown error is caught and becomes `null`. -/
def downloadAudio (info : RecordingInfo) (resp : FetchResp) (call : CallRecord)
    (outputDir : String) (fs : Fs) : Option DownloadResult × Fs :=
  if info.status ≠ "Available" ∨ optStrTruthy info.url = false then (none, fs)
  else if resp.ok = false then (none, fs)
  else
    match resp.body with
    | none => (none, fs)
    | some chunks =>
      let size := chunks.sum
      let p := targetPath outputDir call
      if size = 0 then (none, fsRemove (fsWrite fs p size) p)
      else (some ⟨p, targetFilename call, size, call.call_id, call.broker_id⟩, fsWrite fs p size)

/-! Recording lookup with token refresh (`AudioDownloadService.getRecordingInfo`,
`src/lib/services/audio-download.ts` lines 288-341). The provider is a
function from the attempt index to the HTTP response of the lookup request.
The service instance starts with no cached token, so the invocation fetches
a token once up front; on a 401 response it clears the cached token, fetches
a fresh one, and recursively re-enters `getRecordingInfo`. The recursion has
no counter, so the model carries explicit fuel and reports the number of
token-endpoint fetches performed. -/

/-- First element of the provider's `recordings` array. -/
structure RecordingData where
  status : Option String
  url : Option String
  duration : Option Int
  file_size : Option Int
deriving Repr, DecidableEq

/-- Response of one recording-lookup request. -/
inductive LookupResp where
  | r401
  | notOk
  | okBody (recordings : Option (List RecordingData))
  | netThrow
deriving Repr, DecidableEq

/-- Status of the returned info: `recording.status || 'Available'`. -/
def recStatusOf (r : RecordingData) : String :=
  match r.status with
  | none => "Available"
  | some s => if s = "" then "Available" else s

/-- Fueled unfolding of `getRecordingInfo`. The state is the attempt index
and the count of token-endpoint fetches so far; each 401 costs one more
fetch (the refresh) and re-enters the function. `none` means the recursion
did not finish within the given fuel. -/
def getRecordingInfoGo (respond : Nat → LookupResp) (callId : String) :
    Nat → Nat → Nat → Option RecordingInfo × Nat
  | 0, _, fetches => (none, fetches)
  | fuel + 1, attempt, fetches =>
    match respond attempt with
    | LookupResp.r401 => getRecordingInfoGo respond callId fuel (attempt + 1) (fetches + 1)
    | LookupResp.notOk => (some ⟨"NotFound", none, callId, none, none⟩, fetches)
    | LookupResp.okBody none => (some ⟨"NotFound", none, callId, none, none⟩, fetches)
    | LookupResp.okBody (some []) => (some ⟨"NotFound", none, callId, none, none⟩, fetches)
    | LookupResp.okBody (some (r :: _)) =>
      (some ⟨recStatusOf r, r.url, callId, r.duration, r.file_size⟩, fetches)
    | LookupResp.netThrow => (some ⟨"Failed", none, callId, none, none⟩, fetches)

/-- One invocation of `getRecordingInfo` on a fresh service instance: one
initial token fetch, then the attempts. -/
def getRecordingInfo (respond : Nat → LookupResp) (callId : String) (fuel : Nat) :
    Option RecordingInfo × Nat :=
  getRecordingInfoGo respond callId fuel 0 1

/-- A provider that answers 401 to every lookup request. -/
def always401 : Nat → LookupResp := fun _ => LookupResp.r401

/-- A provider that answers 401 once and then returns an available recording. -/
def oneRetryProvider : Nat → LookupResp := fun attempt =>
  if attempt = 0 then LookupResp.r401
  else LookupResp.okBody (some [⟨some "Available", some "https://rec.example/a.wav", some 120, some 1000⟩])

/-! Stage-1 pagination (`POST` of `src/app/api/pipeline/stage1/route.ts`,
lines 64-86). Per day the loop requests page 1, 2, ... and continues exactly
when the response has a truthy `next` cursor, a present `result` array, and
`result.length >= pageSize`. -/

/-- Raw recording sub-object of a raw call entry. -/
structure RawRecording where
  url : Option String
deriving Repr, DecidableEq

/-- Raw `from` sub-object of a raw call entry. -/
structure RawFrom where
  value : Option String
  username : Option String
  name : Option String
  call_id : Option String
  recordings : Option (List RawRecording)
deriving Repr, DecidableEq

/-- Raw `to` sub-object of a raw call entry. -/
structure RawTo where
  user : Option String
  value : Option String
deriving Repr, DecidableEq

/-- Raw `by` sub-object of a raw call entry. -/
structure RawBy where
  username : Option String
deriving Repr, DecidableEq

/-- Raw call entry as received from the call-log endpoint. -/
structure RawEntry where
  fromField : Option RawFrom
  toField : Option RawTo
  byField : Option RawBy
  start_time : Option String
  duration : Option Int
deriving Repr, DecidableEq

/-- The `from` object defaulted by `entry.from || {}`. -/
def emptyRawFrom : RawFrom := ⟨none, none, none, none, none⟩

/-- The `to` object defaulted by `entry.to || {}`. -/
def emptyRawTo : RawTo := ⟨none, none⟩

/-- Call-log page response (`{result, count, next}`). -/
structure CallLogResponse where
  result : Option (List RawEntry)
  count : Option Int
  next : Option String
deriving Repr, DecidableEq

/-- Continuation condition of the stage-1 `while` loop: after the request,
`hasMore` is the truthiness of `next`, and it is forced to `false` when
`result` is absent or shorter than the requested page size. -/
def pageHasMore (resp : CallLogResponse) (pageSize : Nat) : Bool :=
  optStrTruthy resp.next &&
    (match resp.result with
     | none => false
     | some l => decide (pageSize ≤ l.length))

/-- Fueled unfolding of the per-day pagination loop, counting the page
requests issued. `none` means the loop did not stop within the fuel. -/
def stage1FetchGo (provider : Nat → CallLogResponse) (pageSize : Nat) :
    Nat → Nat → Nat → Option Nat
  | 0, _, _ => none
  | fuel + 1, page, requests =>
    if pageHasMore (provider page) pageSize then
      stage1FetchGo provider pageSize fuel (page + 1) (requests + 1)
    else some (requests + 1)

/-- Number of page requests one day's loop issues, starting at page 1. -/
def stage1PageRequests (provider : Nat → CallLogResponse) (pageSize : Nat) (fuel : Nat) :
    Option Nat :=
  stage1FetchGo provider pageSize fuel 1 0

/-- A raw entry with every field absent. -/
def blankEntry : RawEntry := ⟨none, none, none, none, none⟩

/-- Mocked provider for the two-page scenario with page size 2: the first
page returns exactly 2 entries and a `next` cursor, the second returns 1
entry and no cursor. -/
def twoPageScript : Nat → CallLogResponse := fun page =>
  if page = 1 then ⟨some [blankEntry, blankEntry], some 3, some "cursor-2"⟩
  else ⟨some [blankEntry], some 3, none⟩

/-! Raw-entry normalization (`Net2PhoneService.extractRelevantData`,
`src/lib/services/net2phone.ts` lines 82-121). That module is the one
resolved for the import `@/lib/services/net2phone` used by the stage-1 route
and by the unit tests. Its broker-id chain checks, in order: a truthy
`to.user`; a `to.value` containing `"sip:"` and `"@"` matched against
`/sip:(\d+)@/`; a `from.username` containing `"@"` matched against
`/(\d+)@/`; and the same for `by.username`. There is no fallback to the
first letters of `from.name`. -/

/-- JS `String.includes`: substring containment. -/
def strContainsSub (s sub : String) : Bool :=
  decide (sub.data <:+: s.data)

/-- Leftmost match of `/(\d+)@/`: scan each start position; at a digit,
take the maximal digit run and demand a following `@` (shorter runs at the
same position are followed by a digit, so regex backtracking cannot help). -/
def matchDigitsAmp : List Char → Option String
  | [] => none
  | c :: rest =>
    if c.isDigit then
      match (c :: rest).dropWhile Char.isDigit with
      | '@' :: _ => some (String.mk ((c :: rest).takeWhile Char.isDigit))
      | _ => matchDigitsAmp rest
    else matchDigitsAmp rest

/-- Leftmost match of `/sip:(\d+)@/`: at each position require the literal
`"sip:"`, then a non-empty digit run followed by `@`. -/
def matchSipDigitsAmp : List Char → Option String
  | [] => none
  | c :: rest =>
    if (c :: rest).take 4 = ['s', 'i', 'p', ':'] then
      match ((c :: rest).drop 4).takeWhile Char.isDigit,
          ((c :: rest).drop 4).dropWhile Char.isDigit with
      | d :: ds, '@' :: _ => some (String.mk (d :: ds))
      | _, _ => matchSipDigitsAmp rest
    else matchSipDigitsAmp rest

/-- Broker-id chain of `extractRelevantData` (lines 88-106). A branch that
is entered but whose regex fails leaves the broker id empty without trying
the later branches, exactly like the `else if` chain in the source. -/
def brokerIdOf (entry : RawEntry) : String :=
  let f := entry.fromField.getD emptyRawFrom
  let t := entry.toField.getD emptyRawTo
  if optStrTruthy t.user then t.user.getD ""
  else if optStrTruthy t.value && strContainsSub (t.value.getD "") "sip:"
      && strContainsSub (t.value.getD "") "@" then
    (matchSipDigitsAmp (t.value.getD "").data).getD ""
  else if optStrTruthy f.username && strContainsSub (f.username.getD "") "@" then
    (matchDigitsAmp (f.username.getD "").data).getD ""
  else
    match entry.byField with
    | none => ""
    | some b =>
      if optStrTruthy b.username && strContainsSub (b.username.getD "") "@" then
        (matchDigitsAmp (b.username.getD "").data).getD ""
      else ""

/-- Recording url of an entry: `from.recordings?.[0]?.url || ''`. -/
def recordingUrlOf (f : RawFrom) : String :=
  match f.recordings with
  | some (r :: _) => r.url.getD ""
  | _ => ""

/-- `extractRelevantData`: normalize each raw entry into a `CallRecord`. -/
def extractRelevantData (calls : List RawEntry) : List CallRecord :=
  calls.map fun entry =>
    { call_id := (entry.fromField.getD emptyRawFrom).call_id.getD ""
      from_number := (entry.fromField.getD emptyRawFrom).value.getD ""
      to_number := (entry.toField.getD emptyRawTo).value.getD ""
      from_username := (entry.fromField.getD emptyRawFrom).username.getD ""
      from_name := (entry.fromField.getD emptyRawFrom).name.getD ""
      start_time := entry.start_time.getD ""
      duration := entry.duration.getD 0
      recording_url := recordingUrlOf (entry.fromField.getD emptyRawFrom)
      broker_id := brokerIdOf entry
      date := if optStrTruthy entry.start_time then
          String.mk ((entry.start_time.getD "").data.takeWhile (fun c => c ≠ 'T'))
        else "" }

/-- Raw entry of the repo's own unit test "should generate broker_id from
from_name": caller display name "John Doe Smith", no to-leg identifier and
no SIP-style username anywhere. -/
def johnFrom : RawFrom :=
  { value := some "+3333333333", username := none, name := some "John Doe Smith",
    call_id := some "789", recordings := none }

/-- See `johnEntry`. -/
def johnEntry : RawEntry :=
  { fromField := some johnFrom,
    toField := some { user := none, value := some "+4444444444" },
    byField := none,
    start_time := some "2025-01-03T09:15:00Z",
    duration := some 240 }

/-- Raw entry with a missing display name but SIP-style username
`"12345@domain"`. -/
def sipUserFrom : RawFrom :=
  { value := some "+1111111111", username := some "12345@domain", name := none,
    call_id := some "456", recordings := none }

/-- See `sipUserEntry`. -/
def sipUserEntry : RawEntry :=
  { fromField := some sipUserFrom,
    toField := some { user := none, value := some "+2222222222" },
    byField := none,
    start_time := some "2025-01-02T15:30:00Z",
    duration := some 90 }

/-! Transcription persistence (`AssemblyAIService.transcribeFile`,
`src/lib/services/assemblyai.ts` lines 100-141). After
`waitForTranscription` resolves, the formatted transcript and the raw JSON
snapshot are written inside the `if (result.status === 'completed')` branch
and nowhere else; the function then returns the result. The model takes the
resolved provider result and reports which files get written. -/

/-- Provider-reported transcription status. -/
inductive TranscriptStatus where
  | queued
  | processing
  | completed
  | error
deriving Repr, DecidableEq

/-- Final transcription result, as far as persistence is concerned. -/
structure TranscriptionResult where
  id : String
  status : TranscriptStatus
  text : Option String
  error : Option String
deriving Repr, DecidableEq

/-- Work item of the transcription batcher (`TranscriptionFile` of
`src/lib/types/pipeline`). -/
structure TranscriptionFile where
  filepath : String
  filename : String
  broker_id : String
  call_id : String
  transcriptFile : String
  rawTranscriptFile : String
deriving Repr, DecidableEq

/-- Paths written by `transcribeFile` given the final provider result: both
files in the completed branch, nothing otherwise. -/
def transcribeFileWrites (fileInfo : TranscriptionFile) (result : TranscriptionResult) :
    List String :=
  if result.status = TranscriptStatus.completed then
    [fileInfo.transcriptFile, fileInfo.rawTranscriptFile]
  else []

/-- A provider result that ends in status `error`. -/
def errorResult : TranscriptionResult :=
  { id := "t1", status := TranscriptStatus.error, text := none,
    error := some "Audio quality too poor" }

/-- A provider result that ends in status `completed`. -/
def completedResult : TranscriptionResult :=
  { id := "t2", status := TranscriptStatus.completed, text := some "hello",
    error := none }

/-- A concrete transcription work item. -/
def sampleTFile : TranscriptionFile :=
  { filepath := "audio/bro_call1.wav", filename := "bro_call1.wav",
    broker_id := "bro", call_id := "call1",
    transcriptFile := "transcripts/bro_call1.txt",
    rawTranscriptFile := "transcripts/raw/bro_call1.json" }

/-- A concrete available recording lookup result. -/
def availableInfo : RecordingInfo :=
  { status := "Available", url := some "https://rec.example/a.wav",
    call_id := "call123", duration := some 120, file_size := some 1000 }

/-- A fetch response whose reported content-length is 1000 but whose body
streams to zero bytes. -/
def emptyBodyResp : FetchResp :=
  { ok := true, contentLength := some 1000, body := some [] }

/-- A concrete call record for download scenarios. -/
def sampleCall : CallRecord :=
  { call_id := "call123", from_number := "+111", to_number := "+222",
    from_username := "user1", from_name := "Test User",
    start_time := "2025-01-01T10:00:00Z", duration := 120,
    recording_url := "https://rec.example/a.wav", broker_id := "tes",
    date := "2025-01-01" }

/-! Helper lemmas about the JS `Map` model. -/

theorem mapHas_cons {σ : Type} (e : String × σ) (m : List (String × σ)) (k : String) :
    mapHas (e :: m) k = ((e.1 == k) || mapHas m k) := by
  simp [mapHas]

theorem mapHas_true_iff {σ : Type} (m : List (String × σ)) (k : String) :
    mapHas m k = true ↔ k ∈ mapKeys m := by
  simp only [mapHas, mapKeys, List.any_eq_true, beq_iff_eq, List.mem_map]

theorem mapHas_false_iff {σ : Type} (m : List (String × σ)) (k : String) :
    mapHas m k = false ↔ k ∉ mapKeys m := by
  rw [← mapHas_true_iff]
  cases h : mapHas m k <;> simp [h]

theorem mapHas_append {σ : Type} (m₁ m₂ : List (String × σ)) (k : String) :
    mapHas (m₁ ++ m₂) k = (mapHas m₁ k || mapHas m₂ k) := by
  simp [mapHas]

theorem mapSet_not_has {σ : Type} (v : σ) :
    ∀ (m : List (String × σ)) (k : String), mapHas m k = false → mapSet m k v = m ++ [(k, v)]
  | [], _, _ => rfl
  | e :: rest, k, h => by
    rw [mapHas_cons] at h
    simp only [Bool.or_eq_false_iff, beq_eq_false_iff_ne, ne_eq] at h
    simp [mapSet, h.1, mapSet_not_has v rest k h.2]

theorem mapKeys_mapSet_has {σ : Type} (v : σ) :
    ∀ (m : List (String × σ)) (k : String),
      mapHas m k = true → mapKeys (mapSet m k v) = mapKeys m
  | [], k, h => by simp [mapHas] at h
  | e :: rest, k, h => by
    by_cases hek : e.1 = k
    · simp [mapSet, hek, mapKeys]
    · rw [mapHas_cons] at h
      simp only [Bool.or_eq_true, beq_iff_eq] at h
      rcases h with h | h
      · exact absurd h hek
      · simp [mapSet, hek, mapKeys] at *
        exact mapKeys_mapSet_has v rest k h

theorem length_mapSet_has {σ : Type} (v : σ) :
    ∀ (m : List (String × σ)) (k : String),
      mapHas m k = true → (mapSet m k v).length = m.length
  | [], k, h => by simp [mapHas] at h
  | e :: rest, k, h => by
    by_cases hek : e.1 = k
    · simp [mapSet, hek]
    · rw [mapHas_cons] at h
      simp only [Bool.or_eq_true, beq_iff_eq] at h
      rcases h with h | h
      · exact absurd h hek
      · simp [mapSet, hek, length_mapSet_has v rest k h]

theorem mapLookup_mapSet_self {σ : Type} (v : σ) :
    ∀ (m : List (String × σ)) (k : String), mapLookup (mapSet m k v) k = some v
  | [], k => by simp [mapSet, mapLookup]
  | e :: rest, k => by
    by_cases hek : e.1 = k
    · simp [mapSet, hek, mapLookup]
    · simp [mapSet, hek, mapLookup, mapLookup_mapSet_self v rest k]

theorem mapLookup_mapSet_ne {σ : Type} (v : σ) :
    ∀ (m : List (String × σ)) (k k' : String),
      k' ≠ k → mapLookup (mapSet m k v) k' = mapLookup m k'
  | [], k, k', h => by simp [mapSet, mapLookup, Ne.symm h]
  | e :: rest, k, k', h => by
    by_cases hek : e.1 = k
    · subst hek
      simp [mapSet, mapLookup, Ne.symm h, h]
    · simp [mapSet, hek, mapLookup, mapLookup_mapSet_ne v rest k k' h]

theorem mapHas_eq_isSome {σ : Type} :
    ∀ (m : List (String × σ)) (k : String), mapHas m k = (mapLookup m k).isSome
  | [], _ => rfl
  | e :: rest, k => by
    by_cases hek : e.1 = k
    · simp [mapHas_cons, hek, mapLookup]
    · simp [mapHas_cons, hek, mapLookup, mapHas_eq_isSome rest k]

/-! Helper lemmas about the deduplication loop. -/

theorem length_dedupStep_le (m : List (String × CallRecord)) (c : CallRecord) :
    (dedupStep m c).length ≤ m.length + 1 := by
  unfold dedupStep
  by_cases h : mapHas m c.call_id = true
  · by_cases hr : hasNameAndRecording c = true
    · simp [h, hr, length_mapSet_has c m c.call_id h]
    · simp [h, hr]
  · rw [Bool.not_eq_true] at h
    simp [h, mapSet_not_has c m c.call_id h]

theorem length_dedupGo_le :
    ∀ (calls : List CallRecord) (m : List (String × CallRecord)),
      (dedupGo calls m).length ≤ m.length + calls.length
  | [], m => by simp [dedupGo]
  | c :: rest, m => by
    have h1 := length_dedupGo_le rest (dedupStep m c)
    have h2 := length_dedupStep_le m c
    simp only [dedupGo, List.length_cons]
    omega

theorem nodup_mapKeys_dedupStep (m : List (String × CallRecord)) (c : CallRecord)
    (h : (mapKeys m).Nodup) : (mapKeys (dedupStep m c)).Nodup := by
  unfold dedupStep
  by_cases hm : mapHas m c.call_id = true
  · by_cases hr : hasNameAndRecording c = true
    · simpa [hm, hr, mapKeys_mapSet_has c m c.call_id hm] using h
    · simpa [hm, hr] using h
  · rw [Bool.not_eq_true] at hm
    rw [if_neg (by simp [hm]), mapSet_not_has c m c.call_id hm]
    have hk : c.call_id ∉ mapKeys m := (mapHas_false_iff m c.call_id).mp hm
    simp [mapKeys, List.nodup_append]
    exact ⟨by simpa [mapKeys] using h, by simpa [mapKeys] using hk⟩

theorem nodup_mapKeys_dedupGo :
    ∀ (calls : List CallRecord) (m : List (String × CallRecord)),
      (mapKeys m).Nodup → (mapKeys (dedupGo calls m)).Nodup
  | [], _, h => h
  | c :: rest, m, h =>
    nodup_mapKeys_dedupGo rest (dedupStep m c) (nodup_mapKeys_dedupStep m c h)

theorem wellKeyed_mapSet (m : List (String × CallRecord)) (k : String) (v : CallRecord)
    (hm : wellKeyed m) (hv : v.call_id = k) : wellKeyed (mapSet m k v) := by
  induction m with
  | nil =>
    intro e he
    simp [mapSet] at he
    simp [he, hv]
  | cons a rest ih =>
    intro e he
    by_cases hak : a.1 = k
    · simp [mapSet, hak] at he
      rcases he with he | he
      · simp [he, hv]
      · exact hm e (by simp [he])
    · simp [mapSet, hak] at he
      rcases he with he | he
      · exact hm e (by simp [he])
      · exact ih (fun x hx => hm x (by simp [hx])) e he

theorem wellKeyed_dedupStep (m : List (String × CallRecord)) (c : CallRecord)
    (hm : wellKeyed m) : wellKeyed (dedupStep m c) := by
  unfold dedupStep
  by_cases h : mapHas m c.call_id = true
  · by_cases hr : hasNameAndRecording c = true
    · simpa [h, hr] using wellKeyed_mapSet m c.call_id c hm rfl
    · simpa [h, hr] using hm
  · rw [Bool.not_eq_true] at h
    simpa [h] using wellKeyed_mapSet m c.call_id c hm rfl

theorem wellKeyed_dedupGo :
    ∀ (calls : List CallRecord) (m : List (String × CallRecord)),
      wellKeyed m → wellKeyed (dedupGo calls m)
  | [], _, h => h
  | c :: rest, m, h =>
    wellKeyed_dedupGo rest (dedupStep m c) (wellKeyed_dedupStep m c h)

theorem dedupGo_fresh :
    ∀ (calls : List CallRecord) (m : List (String × CallRecord)),
      (calls.map CallRecord.call_id).Nodup →
      (∀ c ∈ calls, mapHas m c.call_id = false) →
      dedupGo calls m = m ++ calls.map (fun c => (c.call_id, c))
  | [], m, _, _ => by simp [dedupGo]
  | c :: rest, m, hnd, hfresh => by
    have hc : mapHas m c.call_id = false := hfresh c (by simp)
    have hstep : dedupStep m c = m ++ [(c.call_id, c)] := by
      unfold dedupStep
      rw [if_neg (by simp [hc]), mapSet_not_has c m c.call_id hc]
    have hnd' : (rest.map CallRecord.call_id).Nodup := by
      simpa using hnd.of_cons
    have hmem : c.call_id ∉ rest.map CallRecord.call_id := by
      have hnd2 := hnd
      rw [List.map_cons, List.nodup_cons] at hnd2
      exact hnd2.1
    have hfresh' : ∀ x ∈ rest, mapHas (m ++ [(c.call_id, c)]) x.call_id = false := by
      intro x hx
      rw [mapHas_append]
      have h1 : mapHas m x.call_id = false := hfresh x (by simp [hx])
      have h2 : mapHas [(c.call_id, c)] x.call_id = false := by
        have : x.call_id ≠ c.call_id := by
          intro hcon
          exact hmem (by simpa [← hcon] using List.mem_map_of_mem CallRecord.call_id hx)
        simp [mapHas, beq_eq_false_iff_ne]
        exact fun hcon => this hcon.symm
      simp [h1, h2]
    calc dedupGo (c :: rest) m = dedupGo rest (m ++ [(c.call_id, c)]) := by
          simp [dedupGo, hstep]
      _ = (m ++ [(c.call_id, c)]) ++ rest.map (fun c => (c.call_id, c)) :=
          dedupGo_fresh rest (m ++ [(c.call_id, c)]) hnd' hfresh'
      _ = m ++ (c :: rest).map (fun c => (c.call_id, c)) := by simp

theorem mapLookup_dedupGo :
    ∀ (calls : List CallRecord) (m : List (String × CallRecord)) (k : String),
      mapLookup (dedupGo calls m) k =
        match mapLookup m k with
        | none => specCollapse (calls.filter (fun c => c.call_id == k))
        | some cur => some (specCollapseStep cur (calls.filter (fun c => c.call_id == k)))
  | [], m, k => by
    cases h : mapLookup m k <;> simp [dedupGo, specCollapse, specCollapseStep, h]
  | c :: rest, m, k => by
    by_cases hck : c.call_id = k
    · have hfilter : (c :: rest).filter (fun x => x.call_id == k) =
          c :: rest.filter (fun x => x.call_id == k) := by
        simp [List.filter_cons, hck]
      cases hm : mapLookup m k with
      | none =>
        have hhas : mapHas m c.call_id = false := by
          rw [mapHas_eq_isSome, hck, hm]
          rfl
        have hlook : mapLookup (dedupStep m c) k = some c := by
          unfold dedupStep
          rw [if_neg (by simp [hhas]), ← hck]
          exact mapLookup_mapSet_self c m c.call_id
        rw [dedupGo, mapLookup_dedupGo rest (dedupStep m c) k, hlook, hfilter]
        simp [specCollapse]
      | some cur =>
        have hhas : mapHas m c.call_id = true := by
          rw [mapHas_eq_isSome, hck, hm]
          rfl
        have hlook : mapLookup (dedupStep m c) k =
            some (if hasNameAndRecording c then c else cur) := by
          unfold dedupStep
          by_cases hr : hasNameAndRecording c = true
          · rw [if_pos hhas, if_pos hr, if_pos hr, ← hck]
            exact mapLookup_mapSet_self c m c.call_id
          · rw [Bool.not_eq_true] at hr
            simp [hhas, hr, hm]
        rw [dedupGo, mapLookup_dedupGo rest (dedupStep m c) k, hlook, hfilter]
        simp only []
        rfl
    · have hfilter : (c :: rest).filter (fun x => x.call_id == k) =
          rest.filter (fun x => x.call_id == k) := by
        simp [List.filter_cons, hck]
      have hlook : mapLookup (dedupStep m c) k = mapLookup m k := by
        have hkne : k ≠ c.call_id := fun h => hck h.symm
        unfold dedupStep
        by_cases hhas : mapHas m c.call_id = true
        · by_cases hr : hasNameAndRecording c = true
          · rw [if_pos hhas, if_pos hr]
            exact mapLookup_mapSet_ne c m c.call_id k hkne
          · rw [Bool.not_eq_true] at hr
            simp [hhas, hr]
        · rw [Bool.not_eq_true] at hhas
          rw [if_neg (by simp [hhas])]
          exact mapLookup_mapSet_ne c m c.call_id k hkne
      rw [dedupGo, mapLookup_dedupGo rest (dedupStep m c) k, hlook, hfilter]

theorem find?_values_eq_mapLookup (k : String) :
    ∀ (m : List (String × CallRecord)), wellKeyed m →
      (m.map Prod.snd).find? (fun c => c.call_id == k) = mapLookup m k
  | [], _ => rfl
  | e :: rest, hwk => by
    have he : e.2.call_id = e.1 := hwk e (by simp)
    have hrest := find?_values_eq_mapLookup k rest (fun x hx => hwk x (by simp [hx]))
    by_cases hek : e.1 = k
    · simp [List.find?, mapLookup, hek, he]
    · have hbeq : (e.1 == k) = false := beq_eq_false_iff_ne.mpr hek
      simp [List.find?, mapLookup, hek, he, hrest, hbeq]

theorem values_call_id_eq_mapKeys :
    ∀ (m : List (String × CallRecord)), wellKeyed m →
      (m.map Prod.snd).map CallRecord.call_id = mapKeys m
  | [], _ => rfl
  | e :: rest, hwk => by
    have he : e.2.call_id = e.1 := hwk e (by simp)
    have hrest := values_call_id_eq_mapKeys rest (fun x hx => hwk x (by simp [hx]))
    simpa [mapKeys, he] using hrest

theorem wellKeyed_nil : wellKeyed [] := by
  intro e he
  simp at he

theorem deduplicateCalls_find (calls : List CallRecord) (k : String) :
    (deduplicateCalls calls).find? (fun c => c.call_id == k) =
      specCollapse (calls.filter (fun c => c.call_id == k)) := by
  unfold deduplicateCalls
  rw [find?_values_eq_mapLookup k (dedupGo calls []) (wellKeyed_dedupGo calls [] wellKeyed_nil)]
  have h := mapLookup_dedupGo calls [] k
  simpa [mapLookup] using h

theorem deduplicateCalls_ids_nodup (calls : List CallRecord) :
    ((deduplicateCalls calls).map CallRecord.call_id).Nodup := by
  unfold deduplicateCalls
  rw [values_call_id_eq_mapKeys (dedupGo calls []) (wellKeyed_dedupGo calls [] wellKeyed_nil)]
  exact nodup_mapKeys_dedupGo calls [] (by simp [mapKeys])

theorem length_filter_eq_le_one (k : String) :
    ∀ (l : List CallRecord), (l.map CallRecord.call_id).Nodup →
      (l.filter (fun c => c.call_id == k)).length ≤ 1
  | [], _ => by simp
  | c :: rest, hnd => by
    rw [List.map_cons, List.nodup_cons] at hnd
    by_cases hck : c.call_id = k
    · have hrest : rest.filter (fun c => c.call_id == k) = [] := by
        rw [List.filter_eq_nil_iff]
        intro x hx
        simp only [beq_iff_eq]
        intro hxk
        exact hnd.1 (by
          rw [hck, ← hxk]
          exact List.mem_map_of_mem CallRecord.call_id hx)
      simp [List.filter_cons, hck, hrest]
    · simp only [List.filter_cons, beq_iff_eq, hck]
      simpa using length_filter_eq_le_one k rest hnd.2

/-- Claim C4: `deduplicateCalls` keys records by `call_id`, and on every
collision the later record replaces the stored one if and only if it has a
non-blank `from_name` and a non-blank `recording_url`; otherwise the stored
record stays. Stated as: for every key, the record the output holds for that
key is exactly the collapse of the input records with that key, where the
collapse starts from the first-seen record and replaces it by each later
record precisely when that record is rich (`specCollapseStep`). -/
theorem deduplicateCalls_replacement_rule (calls : List CallRecord) (k : String) :
    (deduplicateCalls calls).find? (fun c => c.call_id == k) =
      specCollapse (calls.filter (fun c => c.call_id == k)) :=
  deduplicateCalls_find calls k

/-- Claim C4 witness: the replacement rule evaluated on a concrete collision
in which the later record is rich and therefore wins. -/
theorem deduplicateCalls_replacement_rule_witness :
    (deduplicateCalls
        [{ call_id := "1", from_number := "", to_number := "", from_username := "",
           from_name := "", start_time := "", duration := 10, recording_url := "",
           broker_id := "", date := "" },
         { call_id := "1", from_number := "", to_number := "", from_username := "",
           from_name := "User One", start_time := "", duration := 10,
           recording_url := "url1", broker_id := "use", date := "" }]).find?
        (fun c => c.call_id == "1") =
      some { call_id := "1", from_number := "", to_number := "", from_username := "",
             from_name := "User One", start_time := "", duration := 10,
             recording_url := "url1", broker_id := "use", date := "" } := by
  rw [deduplicateCalls_replacement_rule]
  decide

/-- Claim C5: for every input list, the output of `deduplicateCalls` is at
most as long as the input, its `call_id`s are pairwise distinct, and
applying `deduplicateCalls` to its own output returns that output
unchanged. -/
theorem deduplicateCalls_shrinks_nodup_idempotent (calls : List CallRecord) :
    (deduplicateCalls calls).length ≤ calls.length
    ∧ ((deduplicateCalls calls).map CallRecord.call_id).Nodup
    ∧ deduplicateCalls (deduplicateCalls calls) = deduplicateCalls calls := by
  refine ⟨?_, deduplicateCalls_ids_nodup calls, ?_⟩
  · have h := length_dedupGo_le calls []
    simpa [deduplicateCalls] using h
  · have hfresh : ∀ c ∈ deduplicateCalls calls,
        mapHas ([] : List (String × CallRecord)) c.call_id = false := fun _ _ => rfl
    show (dedupGo (deduplicateCalls calls) []).map Prod.snd = deduplicateCalls calls
    rw [dedupGo_fresh (deduplicateCalls calls) [] (deduplicateCalls_ids_nodup calls) hfresh]
    have hcomp : (Prod.snd ∘ fun c : CallRecord => (c.call_id, c)) = id := rfl
    simp [hcomp]

/-- Claim C10: `deduplicateCalls` treats the empty string as an ordinary
dedup key: all records whose `call_id` is empty collapse into at most one
output record, namely the collapse (first such record, replaced only by a
later rich id-less record) of the id-less input records. -/
theorem deduplicateCalls_merges_empty_ids (calls : List CallRecord) :
    ((deduplicateCalls calls).filter (fun c => c.call_id == "")).length ≤ 1
    ∧ (deduplicateCalls calls).find? (fun c => c.call_id == "") =
        specCollapse (calls.filter (fun c => c.call_id == "")) :=
  ⟨length_filter_eq_le_one "" (deduplicateCalls calls) (deduplicateCalls_ids_nodup calls),
   deduplicateCalls_find calls ""⟩

/-! Helper lemmas about the download filter. -/

theorem foldl_filterStep (minDuration : Int) :
    ∀ (calls : List CallRecord) (acc : FilterResult),
      calls.foldl (filterStep minDuration) acc =
        ⟨acc.eligible ++ calls.filter (isEligible minDuration),
         acc.skippedTooShort + (calls.filter (isTooShort minDuration)).length,
         acc.skippedNoRecording + (calls.filter (isNoRecording minDuration)).length,
         acc.skippedNoCallId + (calls.filter isNoCallId).length⟩
  | [], acc => by simp
  | c :: rest, acc => by
    rw [List.foldl_cons, foldl_filterStep minDuration rest (filterStep minDuration acc c)]
    by_cases h1 : c.call_id = ""
    · have e1 : isNoCallId c = true := by simp [isNoCallId, h1]
      have e2 : isTooShort minDuration c = false := by simp [isTooShort, h1]
      have e3 : isNoRecording minDuration c = false := by simp [isNoRecording, h1]
      have e4 : isEligible minDuration c = false := by simp [isEligible, h1]
      simp [filterStep, h1, List.filter_cons, e1, e2, e3, e4]
      omega
    · by_cases h2 : c.duration < minDuration
      · have e1 : isNoCallId c = false := by simp [isNoCallId, h1]
        have e2 : isTooShort minDuration c = true := by simp [isTooShort, h1, h2]
        have e3 : isNoRecording minDuration c = false := by simp [isNoRecording, h2]
        have e4 : isEligible minDuration c = false := by simp [isEligible, h2]
        simp [filterStep, h1, h2, List.filter_cons, e1, e2, e3, e4]
        omega
      · by_cases h3 : c.recording_url = "" ∨ jsTrim c.recording_url = ""
        · have e1 : isNoCallId c = false := by simp [isNoCallId, h1]
          have e2 : isTooShort minDuration c = false := by simp [isTooShort, h2]
          have e3 : isNoRecording minDuration c = true := by
            rcases h3 with h | h <;> simp [isNoRecording, h1, h2, h]
          have e4 : isEligible minDuration c = false := by
            rcases h3 with h | h <;> simp [isEligible, h]
          simp [filterStep, h1, h2, h3, List.filter_cons, e1, e2, e3, e4]
          omega
        · have e1 : isNoCallId c = false := by simp [isNoCallId, h1]
          have e2 : isTooShort minDuration c = false := by simp [isTooShort, h2]
          have e3 : isNoRecording minDuration c = false := by
            push_neg at h3
            simp [isNoRecording, h3.1, h3.2]
          have e4 : isEligible minDuration c = true := by
            push_neg at h3
            simp [isEligible, h1, h2, h3.1, h3.2]
          simp [filterStep, h1, h2, h3, List.filter_cons, e1, e2, e3, e4]

theorem classify_length_sum (minDuration : Int) :
    ∀ (calls : List CallRecord),
      (calls.filter (isEligible minDuration)).length
      + (calls.filter (isTooShort minDuration)).length
      + (calls.filter (isNoRecording minDuration)).length
      + (calls.filter isNoCallId).length = calls.length
  | [] => by simp
  | c :: rest => by
    have ih := classify_length_sum minDuration rest
    by_cases h1 : c.call_id = ""
    · have e1 : isNoCallId c = true := by simp [isNoCallId, h1]
      have e2 : isTooShort minDuration c = false := by simp [isTooShort, h1]
      have e3 : isNoRecording minDuration c = false := by simp [isNoRecording, h1]
      have e4 : isEligible minDuration c = false := by simp [isEligible, h1]
      simp [List.filter_cons, e1, e2, e3, e4]
      omega
    · by_cases h2 : c.duration < minDuration
      · have e1 : isNoCallId c = false := by simp [isNoCallId, h1]
        have e2 : isTooShort minDuration c = true := by simp [isTooShort, h1, h2]
        have e3 : isNoRecording minDuration c = false := by simp [isNoRecording, h2]
        have e4 : isEligible minDuration c = false := by simp [isEligible, h2]
        simp [List.filter_cons, e1, e2, e3, e4]
        omega
      · by_cases h3 : c.recording_url = "" ∨ jsTrim c.recording_url = ""
        · have e1 : isNoCallId c = false := by simp [isNoCallId, h1]
          have e2 : isTooShort minDuration c = false := by simp [isTooShort, h2]
          have e3 : isNoRecording minDuration c = true := by
            rcases h3 with h | h <;> simp [isNoRecording, h1, h2, h]
          have e4 : isEligible minDuration c = false := by
            rcases h3 with h | h <;> simp [isEligible, h]
          simp [List.filter_cons, e1, e2, e3, e4]
          omega
        · have e1 : isNoCallId c = false := by simp [isNoCallId, h1]
          have e2 : isTooShort minDuration c = false := by simp [isTooShort, h2]
          have e3 : isNoRecording minDuration c = false := by
            push_neg at h3
            simp [isNoRecording, h3.1, h3.2]
          have e4 : isEligible minDuration c = true := by
            push_neg at h3
            simp [isEligible, h1, h2, h3.1, h3.2]
          simp [List.filter_cons, e1, e2, e3, e4]
          omega

/-- Claim C6: `filterCallsForDownload` is a pure partition: each count is
exactly the number of input calls matching its classifier, the classifiers
being evaluated in the fixed order missing `call_id`, then short duration,
then blank `recording_url` (so `isNoCallId` ignores the other two
conditions, and an empty-id call is always counted there); the eligible
list keeps exactly the calls passing all three checks, and the four bucket
sizes sum to the input length. -/
theorem filterCallsForDownload_partition (calls : List CallRecord) (minDuration : Int) :
    (filterCallsForDownload calls minDuration).eligible = calls.filter (isEligible minDuration)
    ∧ (filterCallsForDownload calls minDuration).skippedTooShort
        = (calls.filter (isTooShort minDuration)).length
    ∧ (filterCallsForDownload calls minDuration).skippedNoRecording
        = (calls.filter (isNoRecording minDuration)).length
    ∧ (filterCallsForDownload calls minDuration).skippedNoCallId
        = (calls.filter isNoCallId).length
    ∧ (filterCallsForDownload calls minDuration).eligible.length
      + (filterCallsForDownload calls minDuration).skippedTooShort
      + (filterCallsForDownload calls minDuration).skippedNoRecording
      + (filterCallsForDownload calls minDuration).skippedNoCallId = calls.length := by
  have h := foldl_filterStep minDuration calls ⟨[], 0, 0, 0⟩
  unfold filterCallsForDownload
  rw [h]
  refine ⟨by simp, by simp, by simp, by simp, ?_⟩
  have hsum := classify_length_sum minDuration calls
  simp
  omega

/-! Helper lemmas about batch chunking. -/

theorem chunksOfGo_flatten {α : Type} (n : Nat) (hn : 1 ≤ n) :
    ∀ (fuel : Nat) (l : List α), l.length ≤ fuel → (chunksOfGo n fuel l).flatten = l
  | 0, l, h => by
    have : l = [] := List.eq_nil_of_length_eq_zero (Nat.le_zero.mp h)
    simp [this, chunksOfGo]
  | fuel + 1, [], _ => by simp [chunksOfGo]
  | fuel + 1, x :: xs, h => by
    have hlen : ((x :: xs).drop n).length ≤ fuel := by
      simp only [List.length_drop, List.length_cons] at *
      omega
    simp only [chunksOfGo, List.flatten_cons,
      chunksOfGo_flatten n hn fuel ((x :: xs).drop n) hlen]
    exact List.take_append_drop n (x :: xs)

theorem chunksOf_flatten {α : Type} (n : Nat) (hn : 1 ≤ n) (l : List α) :
    (chunksOf n l).flatten = l :=
  chunksOfGo_flatten n hn l.length l (Nat.le_refl _)

theorem effBatchSize_pos (o : Option Nat) : 1 ≤ effBatchSize o := by
  cases o with
  | none => simp [effBatchSize]
  | some n => cases n <;> simp [effBatchSize]

theorem flatten_map_map {α β : Type} (f : α → β) :
    ∀ (chunks : List (List α)),
      (chunks.map (fun chunk => chunk.map f)).flatten = chunks.flatten.map f
  | [] => rfl
  | c :: rest => by
    rw [List.map_cons, List.flatten_cons, List.flatten_cons, List.map_append,
      flatten_map_map f rest]

theorem filterMap_sum_length :
    ∀ (l : List (DownloadResult ⊕ BatchFailure)),
      (l.filterMap sumLeft?).length + (l.filterMap sumRight?).length = l.length
  | [] => rfl
  | s :: rest => by
    have ih := filterMap_sum_length rest
    cases s with
    | inl r => simp [List.filterMap_cons, sumLeft?, sumRight?]; omega
    | inr f => simp [List.filterMap_cons, sumLeft?, sumRight?]; omega

/-- Claim C7: `downloadBatch` always returns exhaustive partitions: the
`successful` and `failed` lists are exactly the partition by outcome of the
per-call results (each call contributing exactly one entry determined by its
own outcome, independently of the chunking and of its siblings' outcomes),
and their lengths sum to the input length. -/
theorem downloadBatch_exhaustive (outcome : CallRecord → DownloadOutcome)
    (calls : List CallRecord) (batchSizeOpt : Option Nat) :
    (downloadBatch outcome calls batchSizeOpt).1
        = (calls.map (processCall outcome)).filterMap sumLeft?
    ∧ (downloadBatch outcome calls batchSizeOpt).2
        = (calls.map (processCall outcome)).filterMap sumRight?
    ∧ (downloadBatch outcome calls batchSizeOpt).1.length
        + (downloadBatch outcome calls batchSizeOpt).2.length = calls.length := by
  have hprocessed :
      ((chunksOf (effBatchSize batchSizeOpt) calls).map
        (fun chunk => chunk.map (processCall outcome))).flatten
      = calls.map (processCall outcome) := by
    rw [flatten_map_map (processCall outcome) (chunksOf (effBatchSize batchSizeOpt) calls),
      chunksOf_flatten (effBatchSize batchSizeOpt) (effBatchSize_pos batchSizeOpt) calls]
  refine ⟨?_, ?_, ?_⟩
  · simp only [downloadBatch, hprocessed]
  · simp only [downloadBatch, hprocessed]
  · simp only [downloadBatch, hprocessed]
    rw [filterMap_sum_length (calls.map (processCall outcome)), List.length_map]

/-- Claim C8: `downloadAudio` never reports a `DownloadResult` of size 0,
and when the fetch succeeds but the body streams to zero bytes — whatever
the reported content-length — the call fails (`none`) and the file written
at the target path has been deleted, so nothing remains on disk there. -/
theorem downloadAudio_no_empty_file :
    (∀ (info : RecordingInfo) (resp : FetchResp) (call : CallRecord) (dir : String)
        (fs : Fs) (r : DownloadResult),
      (downloadAudio info resp call dir fs).1 = some r → 0 < r.size)
    ∧ (∀ (info : RecordingInfo) (resp : FetchResp) (call : CallRecord) (dir : String)
        (fs : Fs) (chunks : List Nat),
      info.status = "Available" → optStrTruthy info.url = true → resp.ok = true →
      resp.body = some chunks → chunks.sum = 0 →
      (downloadAudio info resp call dir fs).1 = none
      ∧ (downloadAudio info resp call dir fs).2 (targetPath dir call) = none) := by
  constructor
  · intro info resp call dir fs r h
    unfold downloadAudio at h
    by_cases h1 : info.status ≠ "Available" ∨ optStrTruthy info.url = false
    · rw [if_pos h1] at h
      simp at h
    · rw [if_neg h1] at h
      by_cases h2 : resp.ok = false
      · rw [if_pos h2] at h
        simp at h
      · rw [if_neg h2] at h
        cases hb : resp.body with
        | none =>
          rw [hb] at h
          simp at h
        | some chunks =>
          rw [hb] at h
          have h' : (if chunks.sum = 0 then
                ((none : Option DownloadResult),
                  fsRemove (fsWrite fs (targetPath dir call) chunks.sum) (targetPath dir call))
              else
                (some ⟨targetPath dir call, targetFilename call, chunks.sum,
                    call.call_id, call.broker_id⟩,
                  fsWrite fs (targetPath dir call) chunks.sum)).1 = some r := h
          by_cases h3 : chunks.sum = 0
          · rw [if_pos h3] at h'
            simp at h'
          · rw [if_neg h3] at h'
            have hr := Option.some.inj h'
            rw [← hr]
            exact Nat.pos_of_ne_zero h3
  · intro info resp call dir fs chunks h1 h2 h3 h4 h5
    constructor
    · simp [downloadAudio, h1, h2, h3, h4, h5]
    · simp [downloadAudio, h1, h2, h3, h4, h5, fsRemove]

/-- Claim C8 witness: the zero-byte-body case evaluated at a concrete call:
a fetch reporting content-length 1000 whose body streams to zero bytes
yields no result and leaves no file at the target path. -/
theorem downloadAudio_no_empty_file_witness :
    (downloadAudio availableInfo emptyBodyResp sampleCall "audio" fsEmpty).1 = none
    ∧ (downloadAudio availableInfo emptyBodyResp sampleCall "audio" fsEmpty).2
        (targetPath "audio" sampleCall) = none :=
  downloadAudio_no_empty_file.2 availableInfo emptyBodyResp sampleCall "audio" fsEmpty []
    rfl rfl rfl rfl rfl

/-! Helper lemma about the recording lookup under persistent 401. -/

theorem getRecordingInfoGo_always401 (callId : String) :
    ∀ (fuel attempt fetches : Nat),
      getRecordingInfoGo always401 callId fuel attempt fetches = (none, fetches + fuel)
  | 0, _, fetches => by simp [getRecordingInfoGo]
  | fuel + 1, attempt, fetches => by
    show getRecordingInfoGo always401 callId fuel (attempt + 1) (fetches + 1) = _
    rw [getRecordingInfoGo_always401 callId fuel (attempt + 1) (fetches + 1)]
    simp only [Prod.mk.injEq]
    exact ⟨trivial, by omega⟩

/-- Claim C1 (amended): on a 401 the cached token is cleared, re-fetched,
and the lookup re-entered recursively with no bound on consecutive 401s: a
single 401 followed by success completes after exactly one refresh (two
token fetches in total), but against a provider that answers 401 to every
request the invocation performs one token fetch per attempt and produces no
result within any finite number of steps. -/
theorem getRecordingInfo_unbounded_on_401 :
    (∀ (fuel : Nat) (callId : String),
      getRecordingInfo always401 callId fuel = (none, fuel + 1))
    ∧ getRecordingInfo oneRetryProvider "call123" 2 =
        (some ⟨"Available", some "https://rec.example/a.wav", "call123", some 120, some 1000⟩, 2) := by
  constructor
  · intro fuel callId
    unfold getRecordingInfo
    rw [getRecordingInfoGo_always401 callId fuel 0 1]
    simp [Nat.add_comm]
  · rfl

/-- Claim C1 counterexample: against a provider that answers 401 to every
lookup request, one invocation of `getRecordingInfo` has already performed
6 token-endpoint fetches (the initial one plus 5 refreshes — far more than
the single refresh the claim allows) after 5 attempts and still has no
result, refuting both "at most one token refresh followed by at most one
retry" and termination under persistent 401s. -/
theorem getRecordingInfo_always401_counterexample :
    getRecordingInfo always401 "call123" 5 = (none, 6) := rfl

/-! Helper lemmas about pagination termination. -/

theorem stage1FetchGo_succ (provider : Nat → CallLogResponse) (pageSize fuel page requests : Nat) :
    stage1FetchGo provider pageSize (fuel + 1) page requests =
      if pageHasMore (provider page) pageSize then
        stage1FetchGo provider pageSize fuel (page + 1) (requests + 1)
      else some (requests + 1) := rfl

theorem stage1FetchGo_stops (provider : Nat → CallLogResponse) (pageSize : Nat) :
    ∀ (N page requests : Nat),
      pageHasMore (provider (page + N)) pageSize = false →
      ∃ n, stage1FetchGo provider pageSize (N + 1) page requests = some n
        ∧ n ≤ requests + N + 1
  | 0, page, requests, h => by
    rw [Nat.add_zero] at h
    refine ⟨requests + 1, ?_, by omega⟩
    rw [stage1FetchGo_succ, if_neg (by simp [h])]
  | N + 1, page, requests, h => by
    by_cases hc : pageHasMore (provider page) pageSize = true
    · have h' : pageHasMore (provider ((page + 1) + N)) pageSize = false := by
        have harith : (page + 1) + N = page + (N + 1) := by omega
        rw [harith]
        exact h
      obtain ⟨n, hn, hle⟩ := stage1FetchGo_stops provider pageSize N (page + 1) (requests + 1) h'
      refine ⟨n, ?_, by omega⟩
      rw [stage1FetchGo_succ, if_pos hc]
      exact hn
    · rw [Bool.not_eq_true] at hc
      refine ⟨requests + 1, ?_, by omega⟩
      rw [stage1FetchGo_succ, if_neg (by simp [hc])]

/-- Claim C9: the per-day pagination loop stops as soon as a page response
has no truthy `next` cursor or returns fewer than `pageSize` results: if the
stop condition holds at page `1 + N`, the loop returns within fuel `N + 1`
after at most `N + 1` page requests; and on the mocked provider whose first
page carries exactly `pageSize` results plus a cursor and whose second page
is short, exactly 2 page requests are issued. -/
theorem stage1_pagination (provider : Nat → CallLogResponse) (pageSize N : Nat)
    (hstop : pageHasMore (provider (1 + N)) pageSize = false) :
    (∃ n, stage1PageRequests provider pageSize (N + 1) = some n ∧ n ≤ N + 1)
    ∧ stage1PageRequests twoPageScript 2 5 = some 2 := by
  constructor
  · obtain ⟨n, hn, hle⟩ := stage1FetchGo_stops provider pageSize N 1 0 hstop
    exact ⟨n, hn, by omega⟩
  · rfl

/-- Claim C9 witness: the termination theorem applied to the concrete
two-page provider, whose stop condition holds at page 2. -/
theorem stage1_pagination_witness :
    (∃ n, stage1PageRequests twoPageScript 2 (1 + 1) = some n ∧ n ≤ 1 + 1)
    ∧ stage1PageRequests twoPageScript 2 5 = some 2 :=
  stage1_pagination twoPageScript 2 1 rfl

/-- Claim C2 (divergence evaluation): `transcribeFile` persists the
formatted transcript and raw snapshot only in the `completed` branch; for a
final provider result of status `error` it writes nothing, contrary to the
claim (and to the repo's own test asserting two writes on error). -/
theorem transcribeFile_error_writes_nothing :
    transcribeFileWrites sampleTFile errorResult = []
    ∧ transcribeFileWrites sampleTFile completedResult =
        [sampleTFile.transcriptFile, sampleTFile.rawTranscriptFile] :=
  ⟨rfl, rfl⟩

/-- Claim C3 (divergence evaluation): for the repo's own test entry with
`from.name` = "John Doe Smith" and no to-leg identifier or SIP-style
username, `extractRelevantData` yields broker id `""` — not `"joh"` as the
claim (and the unit test) state, since the code has no display-name
fallback; for the entry with a missing name and username "12345@domain"
it does yield "12345" as claimed. -/
theorem extractRelevantData_broker_id_eval :
    (extractRelevantData [johnEntry]).map CallRecord.broker_id = [""]
    ∧ (extractRelevantData [sipUserEntry]).map CallRecord.broker_id = ["12345"] := by
  constructor
  · decide
  · decide

end CallAnalysis
